import Mathlib

/-!
Verification of the lua-tz time-zone library (src/tz.c, src/tz.h).

The development shallowly embeds the C source: the TZif loader (`tz_read`,
`tz_readheader`), the zone cache (`tz_data`), the transition lookup
(`tz_find`), and the calendar conversions (`tz_date`, `tz_time`).
Machine integers are modelled as unbounded `Int` (the C code is free of
overflow on its supported domain); C's truncating division and remainder
on `int`/`int64_t` are modelled explicitly by `cdiv`/`cmod`.
-/

namespace LuaTz

/-- C integer division for a positive divisor: truncation toward zero.
`Int./` in Lean is Euclidean division, which agrees with C on nonnegative
dividends; for negative dividends C truncates toward zero. -/
def cdiv (a b : Int) : Int := if 0 ≤ a then a / b else -(-a / b)

/-- C integer remainder for a positive divisor: takes the sign of the
dividend, satisfying `a = b * cdiv a b + cmod a b`. -/
def cmod (a b : Int) : Int := if 0 ≤ a then a % b else -(-a % b)

theorem cdiv_of_nonneg {a : Int} (b : Int) (h : 0 ≤ a) : cdiv a b = a / b := by
  simp [cdiv, h]

theorem cdiv_of_neg {a : Int} (b : Int) (h : a < 0) : cdiv a b = -(-a / b) := by
  simp [cdiv, Int.not_le.mpr h]

theorem cmod_of_nonneg {a : Int} (b : Int) (h : 0 ≤ a) : cmod a b = a % b := by
  simp [cmod, h]

theorem cmod_of_neg {a : Int} (b : Int) (h : a < 0) : cmod a b = -(-a % b) := by
  simp [cmod, Int.not_le.mpr h]

/-- Constants from src/tz.h. -/
def LUATZ_EPOCH : Int := 2440588

def LUATZ_J0_TIME : Int := -210866803200

def LUATZ_J0_YEAR : Int := -4713

/-! ## Calendar conversion (Fliegel & van Flandern)

`tz_date` decomposes a Julian day number into year/month/day, and
`tz_time` composes it back; both straight from the C source. -/

/-- Year/month/day extraction from a Julian day number, as in `tz_date`
(src/tz.c lines 474-484).  All divisions are C `int` divisions. -/
def jdToDate (jd : Int) : Int × Int × Int :=
  let l := jd + 68569
  let n := cdiv (4 * l) 146097
  let l := l - cdiv (146097 * n + 3) 4
  let i := cdiv (4000 * (l + 1)) 1461001
  let l := l - cdiv (1461 * i) 4 + 31
  let j := cdiv (80 * l) 2447
  let day := l - cdiv (2447 * j) 80
  let l := cdiv j 11
  let month := j + 2 - 12 * l
  let year := 100 * (n - 49) + i + l
  (year, month, day)

/-- Julian day number from year/month/day, as in `tz_time`
(src/tz.c lines 577-581); the C `(month - 14) / 12` terms use truncating
division. -/
def dateToJd (year month day : Int) : Int :=
  cdiv (1461 * (year + 4800 + cdiv (month - 14) 12)) 4
    + cdiv (367 * (month - 2 - 12 * cdiv (month - 14) 12)) 12
    - cdiv (3 * (cdiv (year + 4900 + cdiv (month - 14) 12) 100)) 4
    + day - 32075

/-- Core arithmetic fact: applied to the intermediate values of `jdToDate`
at any nonnegative Julian day, the `dateToJd` formula inverts it, the
month and day land in canonical range, and the year is at least −4713.
Stated over the defining equations so that each step can be discharged
by linear integer arithmetic. -/
theorem fvf_core (jd l n l1 i l2 j d l3 m y a jd2 : Int)
    (h0 : 0 ≤ jd)
    (hl : l = jd + 68569)
    (hn : n = 4 * l / 146097)
    (hl1 : l1 = l - (146097 * n + 3) / 4)
    (hi : i = 4000 * (l1 + 1) / 1461001)
    (hl2 : l2 = l1 - 1461 * i / 4 + 31)
    (hj : j = 80 * l2 / 2447)
    (hd : d = l2 - 2447 * j / 80)
    (hl3 : l3 = j / 11)
    (hm : m = j + 2 - 12 * l3)
    (hy : y = 100 * (n - 49) + i + l3)
    (ha : a = -((14 - m) / 12))
    (hjd2 : jd2 = 1461 * (y + 4800 + a) / 4 + 367 * (m - 2 - 12 * a) / 12
        - 3 * ((y + 4900 + a) / 100) / 4 + d - 32075) :
    jd2 = jd ∧ 1 ≤ m ∧ m ≤ 12 ∧ 1 ≤ d ∧ d ≤ 31 ∧ LUATZ_J0_YEAR ≤ y := by
  revert hjd2
  have hnb : 1 ≤ n := by clear hl1 hi hl2 hj hd hl3 hm hy ha; omega
  have hl1b : 0 ≤ l1 ∧ l1 ≤ 36524 := by clear hi hl2 hj hd hl3 hm hy ha; omega
  have hib : 0 ≤ i ∧ i ≤ 99 := by clear hl hn hl1 hl2 hj hd hl3 hm hy ha; omega
  have hl2b : 31 ≤ l2 ∧ l2 ≤ 397 := by clear hl hn hl1 hj hd hl3 hm hy ha; omega
  have hjb : 1 ≤ j ∧ j ≤ 12 := by clear hl hn hl1 hi hl2 hd hl3 hm hy ha; omega
  have hdb : 1 ≤ d ∧ d ≤ 31 := by clear hl hn hl1 hi hl2 hl3 hm hy ha; omega
  have hl3b : (11 ≤ j → l3 = 1) ∧ (j ≤ 10 → l3 = 0) := by
    clear hl hn hl1 hi hl2 hj hd hm hy ha; omega
  have hmb : 1 ≤ m ∧ m ≤ 12 := by clear hl hn hl1 hi hl2 hj hd hy ha; omega
  have hal3 : a = -l3 := by clear hl hn hl1 hi hl2 hj hd hy; omega
  have hY1 : y + 4800 + a = 100 * (n - 1) + i := by
    clear hl hn hl1 hi hl2 hj hd ha; omega
  have hY2 : (y + 4900 + a) / 100 = n := by
    clear hl hn hl1 hi hl2 hj hd hl3 hm hy ha; omega
  have hmj : m - 2 - 12 * a = j := by clear hl hn hl1 hi hl2 hj hd hy; omega
  have h367 : 367 * j / 12 = 2447 * j / 80 := by
    clear hl hn hl1 hi hl2 hd hl3 hm hy ha; omega
  have hcent : 1461 * (100 * (n - 1) + i) / 4 = 36525 * (n - 1) + 1461 * i / 4 := by
    clear hl hn hl1 hi hl2 hj hd hl3 hm hy ha; omega
  have hquart : (146097 * n + 3) / 4 = 36525 * n - 3 * n / 4 := by
    clear hl hn hl1 hi hl2 hj hd hl3 hm hy ha; omega
  have hy4713 : -4713 ≤ y := by clear hl2 hj hd hm ha; omega
  intro hjd2
  refine ⟨?_, hmb.1, hmb.2, hdb.1, hdb.2, hy4713⟩
  rw [hY1, hY2, hmj] at hjd2
  clear hn hi hj hl3 hm hy ha hl1b hib hl2b hjb hdb hl3b hmb hal3 hY1 hY2 hmj
  clear hy4713 h0
  omega

/-- Truncating division of `month - 14` by 12 matches the floor form used in
`fvf_core` when the month is canonical. -/
theorem cdiv_m14 (m : Int) (h1 : 1 ≤ m) (h2 : m ≤ 12) :
    cdiv (m - 14) 12 = -((14 - m) / 12) := by
  rw [cdiv_of_neg 12 (by omega)]
  have he : -(m - 14) = 14 - m := by ring
  rw [he]

/-- Round trip of the calendar core: for any nonnegative Julian day number,
`dateToJd` inverts `jdToDate`, the month and day are canonical, and the year
is at least −4713. -/
theorem jdToDate_spec (jd : Int) (h : 0 ≤ jd) :
    1 ≤ (jdToDate jd).2.1 ∧ (jdToDate jd).2.1 ≤ 12 ∧
    1 ≤ (jdToDate jd).2.2 ∧ (jdToDate jd).2.2 ≤ 31 ∧
    LUATZ_J0_YEAR ≤ (jdToDate jd).1 ∧
    dateToJd (jdToDate jd).1 (jdToDate jd).2.1 (jdToDate jd).2.2 = jd := by
  rcases hrep : jdToDate jd with ⟨y, my, dy⟩
  dsimp only
  simp only [jdToDate] at hrep
  rw [Prod.mk.injEq, Prod.mk.injEq] at hrep
  obtain ⟨hy, hm, hd⟩ := hrep
  rw [cdiv_of_nonneg 146097 (show (0:Int) ≤ 4 * (jd + 68569) by clear hy hm hd; omega)] at hy hm hd
  set n := 4 * (jd + 68569) / 146097 with hn
  rw [cdiv_of_nonneg 4 (show (0:Int) ≤ 146097 * n + 3 by clear hy hm hd; omega)] at hy hm hd
  set l1 := jd + 68569 - (146097 * n + 3) / 4 with hl1
  rw [cdiv_of_nonneg 1461001 (show (0:Int) ≤ 4000 * (l1 + 1) by clear hy hm hd; omega)] at hy hm hd
  set i := 4000 * (l1 + 1) / 1461001 with hi
  rw [cdiv_of_nonneg 4 (show (0:Int) ≤ 1461 * i by clear hy hm hd; omega)] at hy hm hd
  set l2 := l1 - 1461 * i / 4 + 31 with hl2
  rw [cdiv_of_nonneg 2447 (show (0:Int) ≤ 80 * l2 by clear hy hm hd; omega)] at hy hm hd
  set j := 80 * l2 / 2447 with hj
  rw [cdiv_of_nonneg 80 (show (0:Int) ≤ 2447 * j by clear hy hm hd; omega)] at hd
  rw [cdiv_of_nonneg 11 (show (0:Int) ≤ j by clear hy hm hd; omega)] at hy hm
  set l3 := j / 11 with hl3
  have core := fvf_core jd (jd + 68569) n l1 i l2 j dy l3 my y
    (-((14 - my) / 12)) _ h rfl hn hl1 hi hl2 hj hd.symm hl3 hm.symm hy.symm
    rfl rfl
  refine ⟨core.2.1, core.2.2.1, core.2.2.2.1, core.2.2.2.2.1,
    core.2.2.2.2.2, ?_⟩
  have hm1 : 1 ≤ my := core.2.1
  have hm12 : my ≤ 12 := core.2.2.1
  have hy47 : (-4713 : Int) ≤ y := core.2.2.2.2.2
  have hc := core.1
  clear core hy hm hd
  simp only [dateToJd]
  rw [cdiv_m14 my hm1 hm12]
  rw [cdiv_of_nonneg 4
    (show (0:Int) ≤ 1461 * (y + 4800 + -((14 - my) / 12)) by
      clear hc hn hl1 hi hl2 hj hl3; omega)]
  rw [cdiv_of_nonneg 12
    (show (0:Int) ≤ 367 * (my - 2 - 12 * -((14 - my) / 12)) by
      clear hc hn hl1 hi hl2 hj hl3; omega)]
  rw [cdiv_of_nonneg 100
    (show (0:Int) ≤ y + 4900 + -((14 - my) / 12) by
      clear hc hn hl1 hi hl2 hj hl3; omega)]
  rw [cdiv_of_nonneg 4
    (show (0:Int) ≤ 3 * ((y + 4900 + -((14 - my) / 12)) / 100) by
      clear hc hn hl1 hi hl2 hj hl3; omega)]
  clear hn hl1 hi hl2 hj hl3 hm1 hm12 hy47
  omega

/-! ## Zone data model

`struct tz_type` and `struct tz_data` from src/tz.c.  The header counts are
implicit as list lengths; abbreviations index into the `chars` pool. -/

/-- A time-zone type record (`struct tz_type`): UTC offset in seconds, DST
flag (normalized to boolean by the loader), abbreviation index. -/
structure TzType where
  gmtoff : Int
  isdst : Bool
  abbrind : Nat
deriving Repr, DecidableEq, Inhabited

/-- Parsed zone data (`struct tz_data`): transition instants, per-transition
type indices, type records, and the abbreviation character pool. -/
structure TzData where
  timevalues : List Int
  timetypes : List Nat
  types : List TzType
  chars : List Nat
deriving Repr, DecidableEq, Inhabited

/-- Number of transitions (`header.timecnt`). -/
def timecnt (d : TzData) : Int := d.timevalues.length

/-- Access `data->timevalues[k]`; valid when `0 ≤ k < timecnt`. -/
def tvAt (d : TzData) (k : Int) : Int := d.timevalues.getD k.toNat 0

/-- Access `data->timetypes[k]`; valid when `0 ≤ k < timecnt`. -/
def ttAt (d : TzData) (k : Int) : Nat := d.timetypes.getD k.toNat 0

/-- Access `data->types[k]`; valid when `k < typecnt`. -/
def typeAt (d : TzData) (k : Nat) : TzType := d.types.getD k default

/-- The binary-search loop shared by both branches of `tz_find`
(src/tz.c lines 360-376): narrow `[lower, upper]` on predicate `P`
until `lower > upper` and return the final `upper`.  `(lower + upper) / 2`
is C integer division. -/
def bsearch (P : Int → Bool) (lower upper : Int) : Int :=
  if h : lower ≤ upper then
    if P (cdiv (lower + upper) 2) then bsearch P (cdiv (lower + upper) 2 + 1) upper
    else bsearch P lower (cdiv (lower + upper) 2 - 1)
  else upper
termination_by (upper + 1 - lower).toNat
decreasing_by
  · have hb : lower ≤ cdiv (lower + upper) 2 ∧ cdiv (lower + upper) 2 ≤ upper := by
      unfold cdiv; split <;> omega
    omega
  · have hb : lower ≤ cdiv (lower + upper) 2 ∧ cdiv (lower + upper) 2 ≤ upper := by
      unfold cdiv; split <;> omega
    omega

/-- Midpoint bound for the loop measure. -/
theorem cdiv2_bounds (lo up : Int) (h : lo ≤ up) :
    lo ≤ cdiv (lo + up) 2 ∧ cdiv (lo + up) 2 ≤ up := by
  unfold cdiv; split <;> omega

/-- Loop invariant of the binary search: the final `upper` stays in
`[lower−1, upper]`, satisfies `P` if it reached at least `lower`, and its
successor (if within range) falsifies `P`. -/
theorem bsearch_spec (P : Int → Bool) (lower upper : Int) (h : lower ≤ upper + 1) :
    lower - 1 ≤ bsearch P lower upper ∧ bsearch P lower upper ≤ upper ∧
    (lower ≤ bsearch P lower upper → P (bsearch P lower upper) = true) ∧
    (bsearch P lower upper < upper → P (bsearch P lower upper + 1) = false) := by
  revert h
  induction lower, upper using bsearch.induct P with
  | case1 lower upper hle hP ih =>
    intro h
    have hb := cdiv2_bounds lower upper hle
    rw [bsearch, dif_pos hle, if_pos hP]
    have ih2 := ih (by omega)
    refine ⟨by omega, ih2.2.1, ?_, ih2.2.2.2⟩
    intro hlo
    rcases lt_or_le (bsearch P (cdiv (lower + upper) 2 + 1) upper)
        (cdiv (lower + upper) 2 + 1) with hc | hc
    · have he : bsearch P (cdiv (lower + upper) 2 + 1) upper
          = cdiv (lower + upper) 2 := by omega
      rw [he]; exact hP
    · exact ih2.2.2.1 hc
  | case2 lower upper hle hP ih =>
    intro h
    have hb := cdiv2_bounds lower upper hle
    rw [bsearch, dif_pos hle, if_neg hP]
    have ih2 := ih (by omega)
    refine ⟨ih2.1, by omega, ih2.2.2.1, ?_⟩
    intro hlt
    rcases lt_or_le (bsearch P lower (cdiv (lower + upper) 2 - 1))
        (cdiv (lower + upper) 2 - 1) with hc | hc
    · exact ih2.2.2.2 hc
    · have he : bsearch P lower (cdiv (lower + upper) 2 - 1) + 1
          = cdiv (lower + upper) 2 := by omega
      rw [he]
      simpa using hP
  | case3 lower upper hle =>
    intro h
    rw [bsearch, dif_neg hle]
    exact ⟨by omega, le_refl _, fun hlo => absurd (by omega : lower ≤ upper) hle,
      fun hlt => absurd hlt (lt_irrefl _)⟩

/-- If no index in `[lower, upper]` satisfies `P`, the loop returns
`lower − 1`. -/
theorem bsearch_none (P : Int → Bool) (lower upper : Int) (h : lower ≤ upper + 1)
    (hall : ∀ i, lower ≤ i → i ≤ upper → P i = false) :
    bsearch P lower upper = lower - 1 := by
  have hs := bsearch_spec P lower upper h
  rcases lt_or_le (bsearch P lower upper) lower with hc | hc
  · omega
  · have := hs.2.2.1 hc
    have := hall (bsearch P lower upper) hc hs.2.1
    simp_all

/-- On a downward-closed predicate, the loop returns the greatest satisfying
index. -/
theorem bsearch_rightmost (P : Int → Bool) (lower upper k : Int)
    (h : lower ≤ upper + 1)
    (hmono : ∀ i j, lower ≤ i → i ≤ j → j ≤ upper → P j = true → P i = true)
    (hk1 : lower ≤ k) (hk2 : k ≤ upper) (hPk : P k = true)
    (hmax : ∀ j, k < j → j ≤ upper → P j = false) :
    bsearch P lower upper = k := by
  have hs := bsearch_spec P lower upper h
  rcases lt_or_le (bsearch P lower upper) k with hc | hc
  · exfalso
    have hlt : bsearch P lower upper < upper := by omega
    have hfalse := hs.2.2.2 hlt
    have htrue := hmono (bsearch P lower upper + 1) k (by omega) (by omega) hk2 hPk
    simp_all
  · rcases lt_or_le k (bsearch P lower upper) with hc2 | hc2
    · exfalso
      have := hmax (bsearch P lower upper) hc2 hs.2.1
      have := hs.2.2.1 (by omega)
      simp_all
    · omega

/-- Predicate of the forward search (`data->timevalues[mid] <= t`). -/
def fwdP (d : TzData) (t : Int) (k : Int) : Bool := decide (tvAt d k ≤ t)

/-- Predicate of the reverse search
(`data->timevalues[mid] <= t - data->types[data->timetypes[mid]].gmtoff`):
each transition compared in its own local clock. -/
def revP (d : TzData) (t : Int) (k : Int) : Bool :=
  decide (tvAt d k ≤ t - (typeAt d (ttAt d k)).gmtoff)

/-- Transition lookup (`tz_find`, src/tz.c lines 354-389).  `isdst = none`
models the C argument `-1` (unspecified).  In reverse mode, after the
search, a specified `isdst` differing from the found type may re-select the
immediately preceding transition within the window of an offset decrease.
Returns `types[timetypes[upper]]` for a found index, else `types[0]`. -/
def tz_find (d : TzData) (t : Int) (isdst : Option Bool) (reverse : Bool) : TzType :=
  if !reverse then
    let upper := bsearch (fwdP d t) 0 (timecnt d - 1)
    if 0 ≤ upper then typeAt d (ttAt d upper) else typeAt d 0
  else
    let u := bsearch (revP d t) 0 (timecnt d - 1)
    let upper :=
      match isdst with
      | none => u
      | some b =>
        if (typeAt d (ttAt d u)).isdst ≠ b ∧ 0 < u ∧
            (typeAt d (ttAt d (u - 1))).isdst = b ∧
            t - (typeAt d (ttAt d u)).gmtoff - tvAt d u <
              (typeAt d (ttAt d (u - 1))).gmtoff - (typeAt d (ttAt d u)).gmtoff
        then u - 1 else u
    if 0 ≤ upper then typeAt d (ttAt d upper) else typeAt d 0

/-! ## Date and time conversion (`tz_date`, `tz_time`) -/

/-- Days per month for regular and leap years (`DAYS_PER_MONTH`). -/
def DAYS_PER_MONTH : List (List Int) :=
  [[31, 28, 31, 30, 31, 30, 31, 31, 30, 31, 30, 31],
   [31, 29, 31, 30, 31, 30, 31, 31, 30, 31, 30, 31]]

/-- Number of days in a month (`days`), using the Gregorian leap rule with
C remainder semantics. -/
def days (year month : Int) : Int :=
  (DAYS_PER_MONTH.getD
    (if cmod year 4 = 0 ∧ (cmod year 100 ≠ 0 ∨ cmod year 400 = 0) then 1 else 0)
    []).getD (month - 1).toNat 0

/-- Day of year: the `yday` accumulation loop of `tz_date` plus the day. -/
def ydayOf (year month day : Int) : Int :=
  (((List.range (month - 1).toNat).map fun k => days year (k + 1)).sum) + day

/-- The table produced by `tz_date` with format `"*t"`
(src/tz.c lines 491-505); `abbrind` stands in for the abbreviation string
`&data->chars[type->abbrind]`. -/
structure TzTable where
  sec : Int
  min : Int
  hour : Int
  day : Int
  month : Int
  year : Int
  wday : Int
  yday : Int
  isdst : Bool
  off : Int
  abbrind : Nat
deriving Repr, DecidableEq

/-- Civil conversion of an absolute time (`tz_date`, src/tz.c lines
424-530, table path): forward lookup, apply the offset, then split into
seconds-of-day and Fliegel–van Flandern date fields; `nil` (here `none`)
below `LUATZ_J0_TIME`. -/
def tz_date (d : TzData) (t0 : Int) : Option TzTable :=
  let type := tz_find d t0 none false
  let t := t0 + type.gmtoff
  if LUATZ_J0_TIME ≤ t then
    let sec0 := cmod t 86400
    let sec1 := if sec0 < 0 then sec0 + 86400 else sec0
    let hour := cdiv sec1 3600
    let sec2 := cmod sec1 3600
    let min := cdiv sec2 60
    let sec3 := cmod sec2 60
    let t2 := if t < 0 then t - 86399 else t
    let jd := cdiv t2 86400 + LUATZ_EPOCH
    let ymd := jdToDate jd
    some { sec := sec3, min := min, hour := hour, day := ymd.2.2,
           month := ymd.2.1, year := ymd.1, wday := cmod (jd + 1) 7 + 1,
           yday := ydayOf ymd.1 ymd.2.1 ymd.2.2, isdst := type.isdst,
           off := type.gmtoff, abbrind := type.abbrind }
  else none

/-- Input table of `tz_time`: optional integer fields read by `getfield`,
the tristate `isdst`, and the optional `off`. -/
structure TzField where
  sec : Option Int
  min : Option Int
  hour : Option Int
  day : Option Int
  month : Option Int
  year : Option Int
  isdst : Option Bool
  off : Option Int
deriving Repr, DecidableEq

/-- Field access with default (`getfield`): a missing field with a negative
default raises an error, otherwise the default applies. -/
def getfield (v : Option Int) (d : Int) : Except String Int :=
  match v with
  | some x => .ok x
  | none => if d < 0 then .error "field missing" else .ok d

/-- Month normalization of `tz_time` (src/tz.c lines 565-572): two
sequential conditional adjustments carrying out-of-range months into the
year, with C division/remainder. -/
def normYM (year month : Int) : Int × Int :=
  let ym := if month < 1 then (year + cdiv (month - 12) 12, cmod month 12 + 12)
    else (year, month)
  if ym.2 > 12 then (ym.1 + cdiv (ym.2 - 1) 12, cmod (ym.2 - 1) 12 + 1)
  else ym

/-- Naive absolute seconds computed by `tz_time` (src/tz.c lines 577-586)
before any offset adjustment: Julian-day composition scaled to seconds plus
the time of day, each component taken as supplied, without range checks. -/
def naiveT (year month day hour minute second : Int) : Int :=
  (dateToJd year month day - LUATZ_EPOCH) * 86400
    + hour * 3600 + minute * 60 + second

/-- Absolute time from civil fields (`tz_time`, src/tz.c lines 532-611,
table path).  `tzArg = none` models an absent `timezone` argument, in
which case the local-time zone `locData` applies unless an `off` field is
present; a present `timezone` takes precedence over `off`.  Errors model
`luaL_error`; `Except.ok none` models the `nil` result. -/
def tz_time (f : TzField) (tzArg : Option TzData) (locData : TzData) :
    Except String (Option Int) :=
  match getfield f.sec 0 with
  | .error e => .error e
  | .ok sec =>
  match getfield f.min 0 with
  | .error e => .error e
  | .ok min =>
  match getfield f.hour 12 with
  | .error e => .error e
  | .ok hour =>
  match getfield f.day (-1) with
  | .error e => .error e
  | .ok day =>
  match getfield f.month (-1) with
  | .error e => .error e
  | .ok month =>
  match getfield f.year (-1) with
  | .error e => .error e
  | .ok year =>
    let ym := normYM year month
    if LUATZ_J0_YEAR ≤ ym.1 then
      let t := naiveT ym.1 ym.2 day hour min sec
      let t2 :=
        match f.off, tzArg with
        | some o, none => t - o
        | _, _ => t - (tz_find (tzArg.getD locData) t f.isdst true).gmtoff
      if t2 < LUATZ_J0_TIME then .ok none else .ok (some t2)
    else .ok none

/-- Fields of a `tz_date` output table when fed back into `tz_time`. -/
def fieldsOf (tbl : TzTable) : TzField :=
  { sec := some tbl.sec, min := some tbl.min, hour := some tbl.hour,
    day := some tbl.day, month := some tbl.month, year := some tbl.year,
    isdst := some tbl.isdst, off := some tbl.off }

/-! ## Claim C5: month normalization and arithmetic field overflow -/

/-- Helper for concrete `tz_time` queries: civil date with an explicit zero
offset and otherwise defaulted fields. -/
def mkF (y m d : Int) : TzField :=
  { sec := none, min := none, hour := none, day := some d, month := some m,
    year := some y, isdst := none, off := some 0 }

/-- Claim C5: `tz_time` normalizes an arbitrary integer month into `[1,12]`
carrying into the year (preserving the linear month count), applies the
inverse Fliegel–van Flandern formula directly to out-of-range
day/hour/minute/second values, which roll arithmetically into the next
unit, and in particular day 32 of 2014-01 equals 2014-02-01, day 60 of
2014-01 equals 2014-03-01, and day −61 of 2014-02 equals 2013-12-01. -/
theorem c5_field_overflow :
    (∀ year month : Int, 1 ≤ (normYM year month).2 ∧ (normYM year month).2 ≤ 12 ∧
      12 * (normYM year month).1 + (normYM year month).2 = 12 * year + month) ∧
    (∀ year month day hour minute second : Int,
      naiveT year month day hour minute second
        = naiveT year month 0 0 0 0
          + day * 86400 + hour * 3600 + minute * 60 + second) ∧
    tz_time (mkF 2014 1 32) none default = tz_time (mkF 2014 2 1) none default ∧
    tz_time (mkF 2014 1 60) none default = tz_time (mkF 2014 3 1) none default ∧
    tz_time (mkF 2014 2 (-61)) none default = tz_time (mkF 2013 12 1) none default := by
  refine ⟨?_, ?_, by rfl, by rfl, by rfl⟩
  · intro year month
    simp only [normYM, cdiv, cmod]
    split_ifs <;> dsimp only <;> omega
  · intro year month day hour minute second
    simp only [naiveT, dateToJd]
    ring

/-! ## Claims C6 and C4: NoResult boundary and offset precedence -/

/-- Evaluation of `getfield` when the default is nonnegative: never an
error, the default fills a missing field. -/
theorem getfield_nonneg (v : Option Int) (d : Int) (hd : 0 ≤ d) :
    getfield v d = .ok (v.getD d) := by
  cases v with
  | none => simp [getfield]; omega
  | some x => rfl

/-- Evaluation of `getfield` on a present field. -/
theorem getfield_some (x d : Int) : getfield (some x) d = .ok x := rfl

/-- The `nil`-or-value result of the final domain check of `tz_time`. -/
def nres (t : Int) : Option Int := if t < LUATZ_J0_TIME then none else some t

/-- The absolute time computed by `tz_time` after offset resolution: the
zone argument (or the local zone) wins via reverse lookup; only without a
zone argument does an `off` field apply. -/
def resolvedT (f : TzField) (tzArg : Option TzData) (locData : TzData)
    (dv mo yr : Int) : Int :=
  let ym := normYM yr mo
  let t := naiveT ym.1 ym.2 dv (f.hour.getD 12) (f.min.getD 0) (f.sec.getD 0)
  match f.off, tzArg with
  | some o, none => t - o
  | _, _ => t - (tz_find (tzArg.getD locData) t f.isdst true).gmtoff

/-- Shape of the tail of `tz_time`: the year guard and the domain-floor
guard produce `nil` exactly on the claimed conditions and never an error. -/
theorem okNone_iff (yn A : Int) :
    (∀ e, (if LUATZ_J0_YEAR ≤ yn then
        (if A < LUATZ_J0_TIME then (Except.ok none : Except String (Option Int))
          else .ok (some A))
        else .ok none) ≠ .error e) ∧
    ((if LUATZ_J0_YEAR ≤ yn then
        (if A < LUATZ_J0_TIME then (Except.ok none : Except String (Option Int))
          else .ok (some A))
        else .ok none) = .ok none ↔
      (yn < LUATZ_J0_YEAR ∨ A < LUATZ_J0_TIME)) := by
  split_ifs with h1 h2 <;> constructor <;> simp <;> omega

set_option maxHeartbeats 1000000 in
/-- Claim C6: with the required fields supplied, `tz_time` never raises an
error, and returns `nil` (an ordinary value) exactly when the normalized
year is below −4713 or the offset-adjusted absolute time is below
`LUATZ_J0_TIME`. -/
theorem c6_noresult_boundary (f : TzField) (tzArg : Option TzData)
    (locData : TzData) (dv mo yr : Int) (hfd : f.day = some dv)
    (hfm : f.month = some mo) (hfy : f.year = some yr) :
    (∀ e, tz_time f tzArg locData ≠ .error e) ∧
    (tz_time f tzArg locData = .ok none ↔
      ((normYM yr mo).1 < LUATZ_J0_YEAR ∨
        resolvedT f tzArg locData dv mo yr < LUATZ_J0_TIME)) := by
  delta resolvedT
  rcases hoff : f.off with _ | o <;> rcases tzArg with _ | z <;>
    simp only [tz_time, hfd, hfm, hfy, hoff, getfield_nonneg f.sec 0 (by omega),
      getfield_nonneg f.min 0 (by omega), getfield_nonneg f.hour 12 (by omega),
      getfield_some, Option.getD] <;>
    exact okNone_iff _ _

/-- A Europe/Zurich-like zone: the four DST transitions of 2013–2014,
CET (offset 3600) and CEST (offset 7200, DST). -/
def zurich : TzData :=
  { timevalues := [1364691600, 1382835600, 1396141200, 1414285200],
    timetypes := [1, 0, 1, 0],
    types := [⟨3600, false, 0⟩, ⟨7200, true, 4⟩],
    chars := [67, 69, 84, 0, 67, 69, 83, 84, 0] }

/-- Witness for claim C6 at the domain floor: one second before Julian
day 0 yields `nil`. -/
theorem c6_noresult_boundary_witness :
    tz_time
      { sec := some (-1), min := none, hour := some 0, day := some 24,
        month := some 11, year := some (-4713), isdst := none,
        off := some 0 } none zurich = .ok none := by
  have h := c6_noresult_boundary
    { sec := some (-1), min := none, hour := some 0, day := some 24,
      month := some 11, year := some (-4713), isdst := none,
      off := some 0 } none zurich 24 11 (-4713) rfl rfl rfl
  exact h.2.mpr (by decide)

set_option maxHeartbeats 1000000 in
/-- Claim C4: the adjustment step of `tz_time` (src/tz.c lines 592-603).
With a zone argument, the zone offset found by reverse lookup with the
`isdst` preference is subtracted, whatever the `off` field holds; with an
`off` field and no zone argument, the explicit offset is subtracted. -/
theorem c4_offset_precedence (f : TzField) (d locData : TzData)
    (dv mo yr o : Int) (hfd : f.day = some dv) (hfm : f.month = some mo)
    (hfy : f.year = some yr) (hfo : f.off = some o)
    (hyr : LUATZ_J0_YEAR ≤ (normYM yr mo).1) :
    (tz_time f (some d) locData =
      .ok (nres (naiveT (normYM yr mo).1 (normYM yr mo).2 dv (f.hour.getD 12)
          (f.min.getD 0) (f.sec.getD 0)
        - (tz_find d (naiveT (normYM yr mo).1 (normYM yr mo).2 dv
            (f.hour.getD 12) (f.min.getD 0) (f.sec.getD 0)) f.isdst
            true).gmtoff))) ∧
    (tz_time f none locData =
      .ok (nres (naiveT (normYM yr mo).1 (normYM yr mo).2 dv (f.hour.getD 12)
          (f.min.getD 0) (f.sec.getD 0) - o))) := by
  simp only [tz_time, hfd, hfm, hfy, hfo, getfield_nonneg f.sec 0 (by omega),
    getfield_nonneg f.min 0 (by omega), getfield_nonneg f.hour 12 (by omega),
    getfield_some, nres]
  rw [if_pos hyr, if_pos hyr]
  simp only [Option.getD]
  constructor <;> split_ifs <;> rfl

/-- Witness for claim C4 on the 2013-10-27 fall-back hour in the Zurich
zone: with both a zone argument and `off = 0`, the zone wins and
`isdst = true` selects the first occurrence (1382832000); with only the
`off` field, the explicit offset 0 is honored (1382839200). -/
theorem c4_offset_precedence_witness :
    tz_time
      { sec := some 0, min := some 0, hour := some 2, day := some 27,
        month := some 10, year := some 2013, isdst := some true,
        off := some 0 } (some zurich) zurich = .ok (some 1382832000) ∧
    tz_time
      { sec := some 0, min := some 0, hour := some 2, day := some 27,
        month := some 10, year := some 2013, isdst := some true,
        off := some 0 } none zurich = .ok (some 1382839200) := by
  have h := c4_offset_precedence
    { sec := some 0, min := some 0, hour := some 2, day := some 27,
      month := some 10, year := some 2013, isdst := some true,
      off := some 0 } zurich zurich 27 10 2013 0 rfl rfl rfl rfl (by decide)
  constructor
  · rw [h.1]
    have hf : tz_find zurich 1382839200 (some true) true = ⟨7200, true, 4⟩ := by
      simp [tz_find, bsearch, revP, tvAt, ttAt, typeAt, timecnt, zurich, cdiv]
    show Except.ok (nres (1382839200
      - (tz_find zurich 1382839200 (some true) true).gmtoff)) = _
    rw [hf]
    rfl
  · rw [h.2]
    rfl

/-! ## Claim C3: forward lookup before all transitions -/

/-- Default type as the specification words it (and as release 0.9.0
computed `dfltype`): the first non-DST type in file order, or the first
type if none is non-DST. -/
def firstNonDst (d : TzData) : TzType :=
  match d.types.find? (fun ty => !ty.isdst) with
  | some ty => ty
  | none => typeAt d 0

/-- Amended claim C3: when `t` precedes every transition (so in particular
when the zone has no transitions), the forward lookup of `tz_find` returns
`types[0]`, the first type in file order, regardless of DST flags. -/
theorem c3_forward_default (d : TzData) (t : Int)
    (h : ∀ i : Nat, i < d.timevalues.length → t < d.timevalues.getD i 0) :
    tz_find d t none false = typeAt d 0 := by
  have hz : bsearch (fwdP d t) 0 (timecnt d - 1) = -1 := by
    have hn : (0:Int) ≤ (timecnt d - 1) + 1 := by
      simp only [timecnt]; omega
    have := bsearch_none (fwdP d t) 0 (timecnt d - 1) hn ?hall
    · omega
    case hall =>
      intro i h0 hi
      have hlt : i.toNat < d.timevalues.length := by
        simp only [timecnt] at hi; omega
      simp only [fwdP, tvAt, decide_eq_false_iff_not, not_le]
      exact h i.toNat hlt
  simp only [tz_find, Bool.not_false, if_pos, hz]
  norm_num

/-- A transition-free zone whose first type is DST and whose second type
is not: distinguishes `types[0]` from the first non-DST type. -/
def dstFirstZone : TzData :=
  { timevalues := [], timetypes := [],
    types := [⟨7200, true, 0⟩, ⟨0, false, 1⟩], chars := [] }

/-- Counterexample to claim C3 as stated: on `dstFirstZone`, the forward
lookup returns the first type (a DST type), not the first non-DST type
demanded by the claim. -/
theorem c3_counterexample :
    tz_find dstFirstZone 0 none false = ⟨7200, true, 0⟩ ∧
    firstNonDst dstFirstZone = ⟨0, false, 1⟩ ∧
    (⟨7200, true, 0⟩ : TzType) ≠ ⟨0, false, 1⟩ := by
  refine ⟨?_, by decide, by decide⟩
  have h := c3_forward_default dstFirstZone 0 (by intro i hi; simp [dstFirstZone] at hi)
  rw [h]
  rfl

/-- Witness for the amended claim C3 on the Zurich zone: a query before the
first transition resolves to `types[0]` (CET). -/
theorem c3_forward_default_witness :
    tz_find zurich 0 none false = typeAt zurich 0 := by
  exact c3_forward_default zurich 0 (by decide)

/-! ## Claim C2: reverse lookup -/

/-- Rightmost transition index in `[0, m)` satisfying the reverse
predicate, by linear scan from the right; follows the specification wording
of the reverse search target. -/
def rightmostSatAux (d : TzData) (t : Int) : Nat → Option Nat
  | 0 => none
  | m + 1 => if revP d t m then some m else rightmostSatAux d t m

/-- Rightmost transition satisfying
`utcInstant ≤ t − type(transition).offsetSeconds`, as the specification
words it. -/
def rightmostSat (d : TzData) (t : Int) : Option Nat :=
  rightmostSatAux d t d.timevalues.length

/-- Downward closure of the reverse predicate, checked adjacently over all
transitions: whenever a transition satisfies it, so does its predecessor. -/
def revMono (d : TzData) (t : Int) : Bool :=
  (List.range d.timevalues.length).all fun j =>
    !(revP d t j) || (decide (j = 0) || revP d t ((j : Int) - 1))

theorem rightmostSatAux_spec (d : TzData) (t : Int) :
    ∀ m k, rightmostSatAux d t m = some k →
      k < m ∧ revP d t k = true ∧
        ∀ j : Nat, k < j → j < m → revP d t j = false := by
  intro m
  induction m with
  | zero => intro k hk; simp [rightmostSatAux] at hk
  | succ m ih =>
    intro k hk
    rw [rightmostSatAux] at hk
    by_cases hP : revP d t m = true
    · rw [if_pos hP] at hk
      obtain rfl : m = k := by simpa using hk
      exact ⟨by omega, hP, fun j h1 h2 => by omega⟩
    · rw [if_neg hP] at hk
      obtain ⟨h1, h2, h3⟩ := ih k hk
      refine ⟨by omega, h2, fun j hj1 hj2 => ?_⟩
      rcases Nat.lt_or_ge j m with hc | hc
      · exact h3 j hj1 hc
      · have : j = m := by omega
        subst this
        simpa using hP
  
theorem revMono_down (d : TzData) (t : Int) (h : revMono d t = true) :
    ∀ j : Nat, j < d.timevalues.length → revP d t j = true →
      ∀ i : Nat, i ≤ j → revP d t i = true := by
  have hadj : ∀ j : Nat, j < d.timevalues.length → revP d t j = true →
      j ≠ 0 → revP d t ((j : Int) - 1) = true := by
    intro j hj hP hj0
    have := (List.all_eq_true.mp h) j (List.mem_range.mpr hj)
    simp only [Bool.or_eq_true, Bool.not_eq_true', decide_eq_true_eq] at this
    rcases this with hc | hc | hc
    · rw [hP] at hc; cases hc
    · exact absurd hc hj0
    · exact hc
  intro j
  induction j with
  | zero =>
    intro _ hP i hi
    have : i = 0 := by omega
    subst this; exact hP
  | succ j ih =>
    intro hj hP i hi
    rcases Nat.lt_or_ge i (j + 1) with hc | hc
    · have hprev : revP d t ((((j : Nat) + 1 : Nat) : Int) - 1) = true :=
        hadj (j + 1) hj hP (by omega)
      have hcast : (((j : Nat) + 1 : Nat) : Int) - 1 = (j : Int) := by
        push_cast; ring
      rw [hcast] at hprev
      exact ih (by omega) hprev i (by omega)
    · have : i = j + 1 := by omega
      subst this; exact hP

/-- Amended claim C2: provided the reverse predicate is downward closed
over the zone's transitions (`revMono`), the reverse search selects the
rightmost transition satisfying
`utcInstant ≤ t − type(transition).offsetSeconds`; when `dstPreference` is
unspecified the found (later) type is returned, and when it is specified,
differs from the found type's DST flag, an immediately preceding transition
exists whose type matches the preference, and `t` minus the found offset
exceeds the transition instant by less than the offset decrease between the
two types, the preceding type is re-selected. -/
theorem c2_reverse_lookup (d : TzData) (t : Int) (pref : Option Bool) (k : Nat)
    (hmono : revMono d t = true) (hk : rightmostSat d t = some k) :
    tz_find d t pref true =
      match pref with
      | none => typeAt d (ttAt d k)
      | some b =>
        if (typeAt d (ttAt d k)).isdst ≠ b ∧ 0 < (k : Int) ∧
            (typeAt d (ttAt d ((k : Int) - 1))).isdst = b ∧
            t - (typeAt d (ttAt d k)).gmtoff - tvAt d k <
              (typeAt d (ttAt d ((k : Int) - 1))).gmtoff
                - (typeAt d (ttAt d k)).gmtoff
          then typeAt d (ttAt d ((k : Int) - 1)) else typeAt d (ttAt d k) := by
  obtain ⟨hkn, hPk, hmax⟩ := rightmostSatAux_spec d t _ k hk
  have hfound : bsearch (revP d t) 0 (timecnt d - 1) = (k : Int) := by
    apply bsearch_rightmost (revP d t) 0 (timecnt d - 1) (k : Int)
      (by simp only [timecnt]; omega)
    · intro i j h0 hij hjn hPj
      have hj' : revP d t (j.toNat : Int) = true := by
        rwa [Int.toNat_of_nonneg (by omega)]
      have := revMono_down d t hmono j.toNat
        (by simp only [timecnt] at hjn; omega) hj' i.toNat
        (by omega)
      rwa [Int.toNat_of_nonneg h0] at this
    · omega
    · simp only [timecnt]; omega
    · rwa [show ((k : Nat) : Int) = ((k : Nat) : Int) from rfl]
    · intro j hjk hjn
      have hj0 : 0 ≤ j := by omega
      have := hmax j.toNat (by omega) (by simp only [timecnt] at hjn; omega)
      rwa [show j = (j.toNat : Int) from (Int.toNat_of_nonneg hj0).symm]
  simp only [tz_find, Bool.not_true]
  rw [if_neg (show ¬(false = true) by decide), hfound]
  cases pref with
  | none =>
    simp only []
    rw [if_pos (by omega : (0:Int) ≤ (k : Int))]
  | some b =>
    simp only []
    by_cases hcond : (typeAt d (ttAt d k)).isdst ≠ b ∧ 0 < (k : Int) ∧
        (typeAt d (ttAt d ((k : Int) - 1))).isdst = b ∧
        t - (typeAt d (ttAt d k)).gmtoff - tvAt d k <
          (typeAt d (ttAt d ((k : Int) - 1))).gmtoff
            - (typeAt d (ttAt d k)).gmtoff
    · rw [if_pos hcond, if_pos hcond, if_pos (by omega : (0:Int) ≤ (k : Int) - 1)]
    · rw [if_neg hcond, if_neg hcond, if_pos (by omega : (0:Int) ≤ (k : Int))]

/-- A well-formed zone (strictly ascending transitions, in-bounds type
indices) on which the reverse predicate is not downward closed: the offset
decrease between its types exceeds the gap between its transitions. -/
def shortGapZone : TzData :=
  { timevalues := [0, 10], timetypes := [0, 1],
    types := [⟨100, false, 0⟩, ⟨0, false, 0⟩], chars := [] }

/-- Counterexample to claim C2 as stated: at `t = 50` the rightmost
transition of `shortGapZone` satisfying the reverse comparison is index 1,
but the binary search misses it and `tz_find` falls back to `types[0]`,
which differs from type of transition 1. -/
theorem c2_counterexample :
    rightmostSat shortGapZone 50 = some 1 ∧
    tz_find shortGapZone 50 none true ≠ typeAt shortGapZone (ttAt shortGapZone 1) := by
  constructor
  · decide
  · have hb : bsearch (revP shortGapZone 50) 0 (timecnt shortGapZone - 1) = -1 := by
      simp [bsearch, revP, tvAt, ttAt, typeAt, timecnt, shortGapZone, cdiv]
    simp only [tz_find, Bool.not_true, if_neg, hb]
    decide

/-- Witness for the amended claim C2 in the repeated hour of the Zurich
fall-back on 2013-10-27: the rightmost satisfying transition is index 1
(to CET), and `dstPreference = true` re-selects the preceding CEST type. -/
theorem c2_reverse_lookup_witness :
    tz_find zurich 1382839200 (some true) true = typeAt zurich (ttAt zurich 0) := by
  have h := c2_reverse_lookup zurich 1382839200 (some true) 1
    (by decide) (by decide)
  rw [h]
  decide

/-! ## Claim C1: round trip -/

/-- Month normalization is the identity on canonical months. -/
theorem normYM_id (y m : Int) (h1 : 1 ≤ m) (h12 : m ≤ 12) :
    normYM y m = (y, m) := by
  simp only [normYM]
  rw [if_neg (by omega : ¬ m < 1)]
  rw [if_neg (by dsimp only; omega)]

set_option maxHeartbeats 1000000 in
/-- Amended claim C1: for a `t` at or above `LUATZ_J0_TIME` whose civil
conversion in zone `d` succeeds, feeding the resulting table back into
`tz_time` with the same zone yields the local time minus the
reverse-lookup offset (under the table's DST flag as preference); the
round trip returns exactly `t` precisely when that reverse lookup
resolves the offset the forward lookup applied.  The repeated civil hour
at a fall-back is one case where the two offsets differ, but not the only
one: `c1_counterexample` exhibits a zone and an instant outside any
repeated hour where the round trip still diverges. -/
theorem c1_roundtrip (d : TzData) (t : Int) (ht : LUATZ_J0_TIME ≤ t)
    (tbl : TzTable) (hconv : tz_date d t = some tbl) :
    tz_time (fieldsOf tbl) (some d) d =
      .ok (nres (t + (tz_find d t none false).gmtoff
        - (tz_find d (t + (tz_find d t none false).gmtoff)
            (some tbl.isdst) true).gmtoff)) ∧
    ((tz_find d (t + (tz_find d t none false).gmtoff) (some tbl.isdst)
        true).gmtoff = (tz_find d t none false).gmtoff →
      tz_time (fieldsOf tbl) (some d) d = .ok (some t)) := by
  simp only [tz_date] at hconv
  set ty := tz_find d t none false with hty
  set s := t + ty.gmtoff with hs
  rcases lt_or_le s LUATZ_J0_TIME with hJ0 | hJ0
  · rw [if_neg (by omega)] at hconv
    cases hconv
  rw [if_pos hJ0] at hconv
  set jd := cdiv (if s < 0 then s - 86399 else s) 86400 + LUATZ_EPOCH with hjd
  have hjdfloor : jd = s / 86400 + 2440588 := by
    rw [hjd]
    unfold cdiv
    simp only [LUATZ_EPOCH]
    split_ifs <;> omega
  have hjd0 : 0 ≤ jd := by
    simp only [LUATZ_J0_TIME] at hJ0
    omega
  have hspec := jdToDate_spec jd hjd0
  rw [Option.some.injEq] at hconv
  have hsec : tbl.sec = cmod (cmod (if cmod s 86400 < 0 then
      cmod s 86400 + 86400 else cmod s 86400) 3600) 60 := by rw [← hconv]
  have hmin : tbl.min = cdiv (cmod (if cmod s 86400 < 0 then
      cmod s 86400 + 86400 else cmod s 86400) 3600) 60 := by rw [← hconv]
  have hhour : tbl.hour = cdiv (if cmod s 86400 < 0 then
      cmod s 86400 + 86400 else cmod s 86400) 3600 := by rw [← hconv]
  have hday : tbl.day = (jdToDate jd).2.2 := by rw [← hconv]
  have hmonth : tbl.month = (jdToDate jd).2.1 := by rw [← hconv]
  have hyear : tbl.year = (jdToDate jd).1 := by rw [← hconv]
  have hisdst : tbl.isdst = ty.isdst := by rw [← hconv]
  have hoff : tbl.off = ty.gmtoff := by rw [← hconv]
  have hnorm : normYM tbl.year tbl.month = (tbl.year, tbl.month) := by
    rw [hmonth, hyear]
    exact normYM_id _ _ hspec.1 hspec.2.1
  have hyr : LUATZ_J0_YEAR ≤ (normYM tbl.year tbl.month).1 := by
    rw [hnorm]
    dsimp only
    rw [hyear]
    exact hspec.2.2.2.2.1
  have hc4 := c4_offset_precedence (fieldsOf tbl) d d
    tbl.day tbl.month tbl.year tbl.off rfl rfl rfl rfl hyr
  have hnaive : naiveT tbl.year tbl.month tbl.day tbl.hour tbl.min tbl.sec
      = s := by
    rw [hyear, hmonth, hday, hhour, hmin, hsec]
    simp only [naiveT]
    rw [hspec.2.2.2.2.2]
    have h1 : (if cmod s 86400 < 0 then cmod s 86400 + 86400
        else cmod s 86400) = s % 86400 := by
      unfold cmod
      split_ifs <;> omega
    rw [h1]
    rw [cmod_of_nonneg 3600 (by omega)]
    rw [cdiv_of_nonneg 3600 (by omega)]
    rw [cmod_of_nonneg 60 (by omega)]
    rw [cdiv_of_nonneg 60 (by omega)]
    rw [hjdfloor]
    simp only [LUATZ_EPOCH]
    omega
  simp only [fieldsOf, Option.getD, hnorm] at hc4
  rw [hnaive] at hc4
  constructor
  · exact hc4.1
  · intro heq
    rw [heq] at hc4
    have hnr : nres (s - ty.gmtoff) = some t := by
      unfold nres
      rw [hs]
      rw [if_neg (by omega)]
      congr 1
      omega
    exact hc4.1.trans (congrArg Except.ok hnr)

/-- The table `tz_date` produces for 1396141199 in the Zurich zone:
2014-03-30T01:59:59 CET, one second before the spring-forward. -/
def zurichTable : TzTable :=
  { sec := 59, min := 59, hour := 1, day := 30, month := 3, year := 2014,
    wday := 1, yday := 89, isdst := false, off := 3600, abbrind := 0 }

/-- Witness for claim C1: the civil fields of 1396141199 in the Zurich
zone convert back to exactly 1396141199. -/
theorem c1_roundtrip_witness :
    tz_time (fieldsOf zurichTable) (some zurich) zurich
      = .ok (some 1396141199) := by
  have hf : tz_find zurich 1396141199 none false = ⟨3600, false, 0⟩ := by
    simp [tz_find, bsearch, fwdP, tvAt, ttAt, typeAt, timecnt, zurich, cdiv]
  have hconv : tz_date zurich 1396141199 = some zurichTable := by
    simp only [tz_date, hf]
    rfl
  have h := c1_roundtrip zurich 1396141199 (by decide) zurichTable hconv
  apply h.2
  rw [hf]
  have hr : tz_find zurich (1396141199 + 3600) (some zurichTable.isdst) true
      = ⟨3600, false, 0⟩ := by
    simp [tz_find, bsearch, revP, tvAt, ttAt, typeAt, timecnt, zurich, cdiv,
      zurichTable]
  rw [hr]

/-- A loadable zone (ascending transitions, in-bounds type indices,
non-empty types) whose middle type carries a huge offset: the reverse
local-clock predicate at `t = 2000` holds at transitions 0 and 2 but not
at 1, so the binary search resolves the offset-500 type even though the
forward lookup applied offset 0. -/
def gapZone : TzData :=
  { timevalues := [0, 10, 1000], timetypes := [0, 1, 2],
    types := [⟨500, false, 0⟩, ⟨10000, false, 0⟩, ⟨0, false, 0⟩],
    chars := [] }

/-- The table `tz_date` produces for 2000 in `gapZone`:
1970-01-01T00:33:20, offset 0, no DST. -/
def gapTable : TzTable :=
  { sec := 20, min := 33, hour := 0, day := 1, month := 1, year := 1970,
    wday := 5, yday := 1, isdst := false, off := 0, abbrind := 0 }

/-- Counterexample to claim C1 as stated: in `gapZone` the civil time of
`t = 2000` (local second 2000, since the applied offset is 0) is attained
at no other instant — the zone's only repeated local window is the one the
offset-10000 era re-covers, far from 2000 — yet converting the civil
fields back yields 1500, not 2000: the divergence is not confined to
repeated civil hours at fall-back transitions. -/
theorem c1_counterexample :
    tz_date gapZone 2000 = some gapTable ∧
    tz_time (fieldsOf gapTable) (some gapZone) gapZone = .ok (some 1500) ∧
    (1500 : Int) ≠ 2000 := by
  have hf : tz_find gapZone 2000 none false = ⟨0, false, 0⟩ := by
    simp [tz_find, bsearch, fwdP, tvAt, ttAt, typeAt, timecnt, gapZone, cdiv]
  have hr : tz_find gapZone 2000 (some false) true = ⟨500, false, 0⟩ := by
    simp [tz_find, bsearch, revP, tvAt, ttAt, typeAt, timecnt, gapZone, cdiv]
  refine ⟨?_, ?_, by decide⟩
  · simp only [tz_date, hf]
    rfl
  · have hstep : tz_time (fieldsOf gapTable) (some gapZone) gapZone
        = if (2000 : Int) - (tz_find gapZone 2000 (some false) true).gmtoff
            < LUATZ_J0_TIME then .ok none
          else .ok (some (2000
            - (tz_find gapZone 2000 (some false) true).gmtoff)) := rfl
    rw [hstep, hr]
    rfl

/-! ## TZif loader (`tz_readheader`, `tz_read`)

The file is a list of bytes; `size` mirrors the `st_size` argument (the
caller passes the file length).  Short reads fail like `fread`. -/

/-- Read `n` bytes at `pos`, failing on a short read. -/
def readBytes (file : List Nat) (pos n : Nat) : Option (List Nat) :=
  if pos + n ≤ file.length then some ((file.drop pos).take n) else none

/-- Big-endian value of a byte list. -/
def beNat (bs : List Nat) : Nat := bs.foldl (fun acc b => acc * 256 + b) 0

/-- Reinterpret an unsigned 32-bit value as a signed `int32_t`
(the effect of storing `be32toh` output in an `int32_t`, and of the
sign-extending assignment of a 32-bit transition value to `int64_t`). -/
def toInt32 (v : Nat) : Int := if v < 2 ^ 31 then (v : Int) else (v : Int) - 2 ^ 32

/-- Reinterpret an unsigned 64-bit value as a signed `int64_t`. -/
def toInt64 (v : Nat) : Int := if v < 2 ^ 63 then (v : Int) else (v : Int) - 2 ^ 64

/-- C conversion of a (possibly negative) integer to 64-bit `size_t`. -/
def toSizeT (i : Int) : Nat := (i % 2 ^ 64).toNat

/-- Parsed TZ file header (`struct tz_header`); the six counts are the
`int32_t` values after `be32toh`. -/
structure TzHeader where
  version : Nat
  isgmtcnt : Int
  isstdcnt : Int
  leapcnt : Int
  timecnt : Int
  typecnt : Int
  charcnt : Int
deriving Repr, DecidableEq

/-- Header reader (`tz_readheader`, src/tz.c lines 171-202): 44 bytes,
magic `"TZif"`, version `'\0'`, `'2'` (50) or `'3'` (51), six big-endian
counts, then the sanity checks against the file size (a negative count
casts to a huge `size_t` and is rejected; `typecnt` must be nonzero). -/
def tz_readheader (file : List Nat) (size : Nat) (pos : Nat) :
    Except String TzHeader :=
  match readBytes file pos 44 with
  | none => .error "cannot read TZ file header"
  | some hb =>
    if hb.take 4 ≠ [84, 90, 105, 102] then .error "TZ file magic mismatch"
    else
      let version := hb.getD 4 0
      if version ≠ 0 ∧ version ≠ 50 ∧ version ≠ 51 then
        .error "unsupported TZ file version"
      else
        let isgmtcnt := toInt32 (beNat ((hb.drop 20).take 4))
        let isstdcnt := toInt32 (beNat ((hb.drop 24).take 4))
        let leapcnt := toInt32 (beNat ((hb.drop 28).take 4))
        let timecnt := toInt32 (beNat ((hb.drop 32).take 4))
        let typecnt := toInt32 (beNat ((hb.drop 36).take 4))
        let charcnt := toInt32 (beNat ((hb.drop 40).take 4))
        if toSizeT timecnt > size / 1 ∨ toSizeT typecnt > size / 6 ∨
            toSizeT charcnt > size / 1 ∨ typecnt = 0 then
          .error "malformed TZ file"
        else
          .ok { version := version, isgmtcnt := isgmtcnt,
                isstdcnt := isstdcnt, leapcnt := leapcnt, timecnt := timecnt,
                typecnt := typecnt, charcnt := charcnt }

/-- File loader (`tz_read`, src/tz.c lines 204-290).  For version ≥ '2'
the legacy 32-bit block is skipped (the skip amount is computed in
`size_t` arithmetic; a resulting value ≥ 2^63 becomes a negative `long`
and makes `fseek` fail) and the second header supersedes the first.
Transitions are 8-byte values for the 64-bit layout; in the 4-byte
layout the C (src/src/tz.c:275) assigns `be32toh`'s `uint32_t` result
directly to the `int64_t` slot with no `int32_t` cast, so the value is
zero-extended, never negative.  Every type index is checked against
`typecnt`; types are unpacked as big-endian offset, normalized DST flag
and abbreviation index. -/
def tz_read (file : List Nat) (size : Nat) : Except String TzData :=
  match tz_readheader file size 0 with
  | .error e => .error e
  | .ok h0 =>
    let read64 := decide (50 ≤ h0.version)
    let second : Except String (TzHeader × Nat) :=
      if read64 then
        let skip : Nat := (h0.timecnt.toNat * (4 + 1)
          + h0.typecnt.toNat * 6 + h0.charcnt.toNat
          + toSizeT h0.leapcnt * (4 + 4) + toSizeT h0.isstdcnt
          + toSizeT h0.isgmtcnt) % 2 ^ 64
        if skip < 2 ^ 63 then
          match tz_readheader file size (44 + skip) with
          | .error e => .error e
          | .ok h1 => .ok (h1, 44 + skip + 44)
        else .error "cannot read TZ file"
      else .ok (h0, 44)
    match second with
    | .error e => .error e
    | .ok (h, dataPos) =>
      let tvw := if read64 then 8 else 4
      match readBytes file dataPos (h.timecnt.toNat * tvw) with
      | none => .error "cannot read TZ data"
      | some tvb =>
      match readBytes file (dataPos + h.timecnt.toNat * tvw)
          h.timecnt.toNat with
      | none => .error "cannot read TZ data"
      | some ttb =>
      match readBytes file (dataPos + h.timecnt.toNat * tvw
          + h.timecnt.toNat) (h.typecnt.toNat * 6) with
      | none => .error "cannot read TZ data"
      | some tyb =>
      match readBytes file (dataPos + h.timecnt.toNat * tvw
          + h.timecnt.toNat + h.typecnt.toNat * 6) h.charcnt.toNat with
      | none => .error "cannot read TZ data"
      | some chb =>
        let timevalues := (List.range h.timecnt.toNat).map fun i =>
          if read64 then toInt64 (beNat ((tvb.drop (8 * i)).take 8))
          else (beNat ((tvb.drop (4 * i)).take 4) : Int)
        if ttb.any (fun ty => decide (h.typecnt ≤ (ty : Int))) then
          .error "malformed TZ file"
        else
          let types := (List.range h.typecnt.toNat).map fun i =>
            { gmtoff := toInt32 (beNat ((tyb.drop (6 * i)).take 4)),
              isdst := tyb.getD (6 * i + 4) 0 ≠ 0,
              abbrind := tyb.getD (6 * i + 5) 0 : TzType }
          .ok { timevalues := timevalues, timetypes := ttb,
                types := types, chars := chb }

/-! ## Claims C8 and C7: loader invariants and 32-bit extension -/

theorem beNat_foldl_lt (bs : List Nat) : ∀ acc, (∀ b ∈ bs, b < 256) →
    bs.foldl (fun a b => a * 256 + b) acc < (acc + 1) * 256 ^ bs.length := by
  induction bs with
  | nil => intro acc h; simp
  | cons b bs ih =>
    intro acc h
    have hb : b < 256 := h b (List.mem_cons_self b bs)
    have step := ih (acc * 256 + b) fun x hx => h x (List.mem_cons_of_mem b hx)
    calc (b :: bs).foldl (fun a b => a * 256 + b) acc
        = bs.foldl (fun a b => a * 256 + b) (acc * 256 + b) := rfl
      _ < (acc * 256 + b + 1) * 256 ^ bs.length := step
      _ ≤ ((acc + 1) * 256) * 256 ^ bs.length := by
          apply Nat.mul_le_mul_right
          omega
      _ = (acc + 1) * 256 ^ (b :: bs).length := by
          rw [List.length_cons, pow_succ]
          ring

theorem beNat_lt (bs : List Nat) (h : ∀ b ∈ bs, b < 256) :
    beNat bs < 256 ^ bs.length := by
  have := beNat_foldl_lt bs 0 h
  simpa [beNat] using this

theorem beNat_foldl_ge (bs : List Nat) : ∀ acc,
    acc * 256 ^ bs.length ≤ bs.foldl (fun a b => a * 256 + b) acc := by
  induction bs with
  | nil => intro acc; simp
  | cons b bs ih =>
    intro acc
    have step := ih (acc * 256 + b)
    calc acc * 256 ^ (b :: bs).length
        = (acc * 256) * 256 ^ bs.length := by
          rw [List.length_cons, pow_succ]; ring
      _ ≤ (acc * 256 + b) * 256 ^ bs.length := by
          apply Nat.mul_le_mul_right
          omega
      _ ≤ bs.foldl (fun a b => a * 256 + b) (acc * 256 + b) := step
      _ = (b :: bs).foldl (fun a b => a * 256 + b) acc := rfl

/-- A 32-bit big-endian group parses below `2^32` when its bytes are
bytes. -/
theorem beNat_lt_2_32 (bs : List Nat) (h : ∀ b ∈ bs, b < 256)
    (hlen : bs.length ≤ 4) : beNat bs < 2 ^ 32 := by
  have h1 := beNat_lt bs h
  have h2 : (256 : Nat) ^ bs.length ≤ 256 ^ 4 :=
    Nat.pow_le_pow_right (by omega) hlen
  omega

/-- Inversion of a successful header read: the `typecnt` field is a
positive `int32` on a platform-sized file. -/
theorem tz_readheader_typecnt (file : List Nat) (size pos : Nat)
    (h : TzHeader) (hbytes : ∀ b ∈ file, b < 256) (hsize : size < 2 ^ 63)
    (hok : tz_readheader file size pos = .ok h) : 0 < h.typecnt := by
  simp only [tz_readheader] at hok
  split at hok
  · cases hok
  next hb hhb =>
    split at hok
    · cases hok
    split at hok
    · cases hok
    split at hok
    · cases hok
    next hsane =>
      rw [Except.ok.injEq] at hok
      subst hok
      dsimp only at hsane ⊢
      have hv : beNat ((hb.drop 36).take 4) < 2 ^ 32 := by
        apply beNat_lt_2_32
        · intro b hbmem
          apply hbytes
          have h1 : b ∈ hb := List.drop_subset 36 hb (List.take_subset 4 _ hbmem)
          unfold readBytes at hhb
          split at hhb
          · rw [Option.some.injEq] at hhb
            subst hhb
            exact List.drop_subset pos file (List.take_subset 44 _ h1)
          · cases hhb
        · simp
      push_neg at hsane
      obtain ⟨-, hty, -, hty0⟩ := hsane
      have hle : toSizeT (toInt32 (beNat ((hb.drop 36).take 4))) ≤ size / 6 :=
        hty
      have hdiv : size / 6 < 2 ^ 63 := by omega
      unfold toSizeT toInt32 at hle
      unfold toInt32 at hty0 ⊢
      split at hle <;> rename_i hcase
      · rw [if_pos hcase] at hty0 ⊢
        omega
      · rw [if_neg hcase] at hty0 ⊢
        exfalso
        norm_num at hle hcase hv
        omega

set_option maxHeartbeats 1000000 in
/-- Amended claim C8: a successful load yields in-bounds type indices and a
nonempty type list (violations are rejected); the loader does not check
that transitions ascend. -/
theorem c8_load_invariants (file : List Nat) (size : Nat) (d : TzData)
    (hbytes : ∀ b ∈ file, b < 256) (hsize : size < 2 ^ 63)
    (hload : tz_read file size = .ok d) :
    (∀ k ∈ d.timetypes, k < d.types.length) ∧ d.types ≠ [] := by
  simp only [tz_read] at hload
  split at hload
  · cases hload
  next h0 hh0 =>
    split at hload
    · cases hload
    next h dataPos hsecond =>
      have htc : 0 < h.typecnt := by
        split at hsecond
        · split at hsecond
          · split at hsecond
            · cases hsecond
            next h1 hh1 =>
              rw [Except.ok.injEq, Prod.mk.injEq] at hsecond
              exact hsecond.1 ▸ tz_readheader_typecnt file size _ h1 hbytes hsize hh1
          · cases hsecond
        · rw [Except.ok.injEq, Prod.mk.injEq] at hsecond
          exact hsecond.1 ▸ tz_readheader_typecnt file size 0 h0 hbytes hsize hh0
      split at hload
      · cases hload
      next tvb htvb =>
      split at hload
      · cases hload
      next ttb httb =>
      split at hload
      · cases hload
      next tyb htyb =>
      split at hload
      · cases hload
      next chb hchb =>
      split at hload
      · cases hload
      next hany =>
        rw [Except.ok.injEq] at hload
        subst hload
        simp only [List.any_eq_true, decide_eq_true_eq] at hany
        push_neg at hany
        constructor
        · intro k hk
          simp only [List.length_map, List.length_range]
          have hklt := hany k hk
          omega
        · simp only [ne_eq, List.map_eq_nil_iff, List.range_eq_nil]
          omega

/-- A version-1 TZif file whose two transition instants descend
(100 then 50): magic, version 0, 15 reserved bytes, counts
0/0/0/2/1/1, the two instants, two type indices, one type record and a
one-byte character pool. -/
def descFile : List Nat :=
  [84, 90, 105, 102, 0,
   0, 0, 0, 0, 0, 0, 0, 0, 0, 0, 0, 0, 0, 0, 0,
   0, 0, 0, 0,  0, 0, 0, 0,  0, 0, 0, 0,
   0, 0, 0, 2,  0, 0, 0, 1,  0, 0, 0, 1,
   0, 0, 0, 100,  0, 0, 0, 50,
   0, 0,
   0, 0, 0, 0, 0, 0,
   0]

/-- The zone data the loader produces for `descFile`. -/
def descData : TzData :=
  { timevalues := [100, 50], timetypes := [0, 0],
    types := [⟨0, false, 0⟩], chars := [0] }

/-- Counterexample to claim C8 as stated: the loader accepts a file whose
transition instants are not strictly ascending. -/
theorem c8_counterexample :
    tz_read descFile 61 = .ok descData ∧
    ¬ List.Pairwise (· < ·) descData.timevalues := by
  exact ⟨rfl, by decide⟩

/-- Witness for the amended claim C8 on the concrete file `descFile`. -/
theorem c8_load_invariants_witness :
    (∀ k ∈ descData.timetypes, k < descData.types.length) ∧
      descData.types ≠ [] :=
  c8_load_invariants descFile 61 descData (by decide) (by decide) rfl

/-- Inversion of a successful header read: the file holds at least 44
bytes at `pos` and the version is the byte at `pos + 4`. -/
theorem tz_readheader_version (file : List Nat) (size pos : Nat)
    (h : TzHeader) (hok : tz_readheader file size pos = .ok h) :
    h.version = file.getD (pos + 4) 0 ∧ pos + 44 ≤ file.length := by
  simp only [tz_readheader] at hok
  split at hok
  · cases hok
  next hb hhb =>
    split at hok
    · cases hok
    split at hok
    · cases hok
    split at hok
    · cases hok
    rw [Except.ok.injEq] at hok
    subst hok
    dsimp only
    unfold readBytes at hhb
    split at hhb
    · rw [Option.some.injEq] at hhb
      subst hhb
      refine ⟨?_, by omega⟩
      rw [List.getD_eq_getElem?_getD, List.getD_eq_getElem?_getD,
        List.getElem?_take_of_lt (by omega), List.getElem?_drop]
    · cases hhb

set_option maxHeartbeats 1000000 in
/-- Claim C7 (refuted): in a version-1 file (no 64-bit block), each 4-byte
big-endian transition instant is zero-extended — not sign-extended — into
the 64-bit transition value: the C (src/src/tz.c:275) assigns `be32toh`'s
`uint32_t` result to the `int64_t` slot with no `int32_t` cast.  Every
loaded instant is nonnegative, and one with its high bit set parses as a
large positive value, at least `2^31`. -/
theorem c7_zero_extension (file : List Nat) (size : Nat) (d : TzData)
    (hver : file.getD 4 0 = 0)
    (hload : tz_read file size = .ok d) (i : Nat)
    (hi : i < d.timevalues.length) :
    d.timevalues.getD i 0 = (beNat ((file.drop (44 + 4 * i)).take 4) : Int) ∧
    0 ≤ d.timevalues.getD i 0 ∧
    (128 ≤ file.getD (44 + 4 * i) 0 → 2 ^ 31 ≤ d.timevalues.getD i 0) := by
  simp only [tz_read] at hload
  split at hload
  · cases hload
  next h0 hh0 =>
    have hver44 := tz_readheader_version file size 0 h0 hh0
    have hv0 : h0.version = 0 := by
      rw [hver44.1]
      simpa using hver
    rw [hv0] at hload
    simp only [show decide (50 ≤ 0) = false from rfl, Bool.false_eq_true,
      if_false] at hload
    split at hload
    · cases hload
    next tvb htvb =>
    split at hload
    · cases hload
    next ttb httb =>
    split at hload
    · cases hload
    next tyb htyb =>
    split at hload
    · cases hload
    next chb hchb =>
    split at hload
    · cases hload
    next hany =>
      rw [Except.ok.injEq] at hload
      subst hload
      dsimp only at hi ⊢
      rw [List.length_map, List.length_range] at hi
      have hget : ((List.range h0.timecnt.toNat).map fun i =>
          (beNat ((tvb.drop (4 * i)).take 4) : Int)).getD i 0
          = (beNat ((tvb.drop (4 * i)).take 4) : Int) := by
        rw [List.getD_eq_getElem?_getD, List.getElem?_map,
          List.getElem?_range hi]
        rfl
      unfold readBytes at htvb
      split at htvb
      case isFalse => cases htvb
      next hroom =>
      rw [Option.some.injEq] at htvb
      subst htvb
      have hchunk : (((file.drop 44).take (h0.timecnt.toNat * 4)).drop
          (4 * i)).take 4 = (file.drop (44 + 4 * i)).take 4 := by
        rw [List.drop_take, List.take_take, List.drop_drop]
        congr 1
        all_goals omega
      rw [hchunk] at hget
      rw [hget]
      refine ⟨rfl, Int.natCast_nonneg _, ?_⟩
      intro hhigh
      suffices hnat : 2 ^ 31 ≤ beNat ((file.drop (44 + 4 * i)).take 4) by
        exact_mod_cast hnat
      have hlen4 : ((file.drop (44 + 4 * i)).take 4).length = 4 := by
        rw [List.length_take, List.length_drop]
        omega
      rcases hc : (file.drop (44 + 4 * i)).take 4 with _ | ⟨b0, rest⟩
      · rw [hc] at hlen4; cases hlen4
      · have hb0 : b0 = file.getD (44 + 4 * i) 0 := by
          have h1 : ((file.drop (44 + 4 * i)).take 4).getD 0 0
              = file.getD (44 + 4 * i) 0 := by
            rw [List.getD_eq_getElem?_getD, List.getD_eq_getElem?_getD,
              List.getElem?_take_of_lt (by omega), List.getElem?_drop]
            norm_num
          rw [hc] at h1
          simpa using h1
        rw [hc] at hlen4
        have hge := beNat_foldl_ge rest b0
        have hrlen : rest.length = 3 := by
          simpa using hlen4
        rw [hrlen] at hge
        have hbeN : beNat (b0 :: rest)
            = rest.foldl (fun a b => a * 256 + b) b0 := by
          simp [beNat]
        rw [hbeN]
        have hb0' : 128 ≤ b0 := hb0 ▸ hhigh
        have h224 : (128 : Nat) * 256 ^ 3 ≤ b0 * 256 ^ 3 :=
          Nat.mul_le_mul_right _ hb0'
        norm_num at h224 hge ⊢
        omega

/-- A version-1 TZif file with a single transition instant `0x80000000`
(high bit set): one type, one pool byte. -/
def negFile : List Nat :=
  [84, 90, 105, 102, 0,
   0, 0, 0, 0, 0, 0, 0, 0, 0, 0, 0, 0, 0, 0, 0,
   0, 0, 0, 0,  0, 0, 0, 0,  0, 0, 0, 0,
   0, 0, 0, 1,  0, 0, 0, 1,  0, 0, 0, 1,
   128, 0, 0, 0,
   0,
   0, 0, 0, 0, 0, 0,
   0]

/-- The zone data the loader produces for `negFile`: the 32-bit instant
`0x80000000` is zero-extended to +2147483648, not sign-extended to
−2147483648. -/
def negData : TzData :=
  { timevalues := [2147483648], timetypes := [0],
    types := [⟨0, false, 0⟩], chars := [0] }

/-- Witness for claim C7's refutation on `negFile`: its single instant,
with high bit set, loads as the positive value +2147483648 where the
claimed sign extension would give −2147483648. -/
theorem c7_zero_extension_witness :
    (negData.timevalues.getD 0 0
        = (beNat ((negFile.drop (44 + 4 * 0)).take 4) : Int) ∧
      0 ≤ negData.timevalues.getD 0 0 ∧
      (128 ≤ negFile.getD (44 + 4 * 0) 0
        → 2 ^ 31 ≤ negData.timevalues.getD 0 0)) ∧
    tz_read negFile 56 = .ok negData ∧
    negData.timevalues.getD 0 0 = 2147483648 := by
  refine ⟨c7_zero_extension negFile 56 negData (by decide) rfl 0
    (by decide), rfl, by decide⟩

/-! ## Claim C9: the zone cache (`tz_data`, src/tz.c lines 292-352)

The registry table is an association list; the loader argument stands for
the name validation, `stat` and `tz_read` sequence.  The natural number
counts loader invocations (load-count instrumentation). -/

/-- Registry lookup (`lua_getfield` on the TZ cache table). -/
def cacheGet (cache : List (String × TzData)) (name : String) : Option TzData :=
  (cache.find? fun e => e.1 == name).map Prod.snd

/-- Zone resolution (`tz_data`): a cached zone is returned without any
loading; otherwise the loader runs and a successful result is published
under the name before being returned, while an error propagates without
touching the cache. -/
def tz_data (loader : String → Except String TzData)
    (cache : List (String × TzData)) (name : String) :
    Except String (TzData × List (String × TzData) × Nat) :=
  match cacheGet cache name with
  | some d => .ok (d, cache, 0)
  | none =>
    match loader name with
    | .error e => .error e
    | .ok d => .ok (d, (name, d) :: cache, 1)

/-- Claim C9: a cached name resolves with zero loader invocations and an
unchanged cache; any successful resolution makes later resolutions of the
same name return the same zone data with zero further loads (so the loader
runs at most once per name); a failed load propagates the error without
caching, so a later call with a recovered loader retries and succeeds. -/
theorem c9_cache (loader loader2 : String → Except String TzData)
    (cache : List (String × TzData)) (name : String) :
    (∀ d, cacheGet cache name = some d →
      tz_data loader cache name = .ok (d, cache, 0)) ∧
    (∀ d cache2 n, tz_data loader cache name = .ok (d, cache2, n) →
      n ≤ 1 ∧ tz_data loader cache2 name = .ok (d, cache2, 0)) ∧
    (∀ e, cacheGet cache name = none → loader name = .error e →
      tz_data loader cache name = .error e) ∧
    (∀ d, cacheGet cache name = none → loader2 name = .ok d →
      tz_data loader2 cache name = .ok (d, (name, d) :: cache, 1)) := by
  have hcons : ∀ d : TzData, cacheGet ((name, d) :: cache) name = some d := by
    intro d
    simp [cacheGet, List.find?]
  refine ⟨?_, ?_, ?_, ?_⟩
  · intro d hd
    simp [tz_data, hd]
  · intro d cache2 n hres
    unfold tz_data at hres
    rcases hget : cacheGet cache name with _ | d0
    · rw [hget] at hres
      rcases hld : loader name with e | d1
      · rw [hld] at hres; cases hres
      · rw [hld] at hres
        rw [Except.ok.injEq, Prod.mk.injEq, Prod.mk.injEq] at hres
        obtain ⟨rfl, rfl, rfl⟩ := hres
        refine ⟨by omega, ?_⟩
        simp [tz_data, hcons d1]
    · rw [hget] at hres
      rw [Except.ok.injEq, Prod.mk.injEq, Prod.mk.injEq] at hres
      obtain ⟨rfl, rfl, rfl⟩ := hres
      refine ⟨by omega, ?_⟩
      simp [tz_data, hget]
  · intro e hget hld
    simp [tz_data, hget, hld]
  · intro d hget hld
    simp [tz_data, hget, hld]

/-! ## Claim C10: bounds of the reverse lookup

`tz_findM` is the access-checked shadow of `tz_find`: every array access
goes through a bounds check in the exact evaluation order of the C
expression, and an out-of-bounds access (undefined behavior in C) yields
`none`. -/

/-- Checked access to `data->timevalues[k]`. -/
def tvAtM (d : TzData) (k : Int) : Option Int :=
  if k < 0 then none else d.timevalues[k.toNat]?

/-- Checked access to `data->timetypes[k]`. -/
def ttAtM (d : TzData) (k : Int) : Option Nat :=
  if k < 0 then none else d.timetypes[k.toNat]?

/-- Checked access to `data->types[k]`. -/
def typeAtM (d : TzData) (k : Nat) : Option TzType := d.types[k]?

/-- The binary-search loop with access-checked predicate. -/
def bsearchM (P : Int → Option Bool) (lower upper : Int) : Option Int :=
  if _h : lower ≤ upper then
    match P (cdiv (lower + upper) 2) with
    | none => none
    | some true => bsearchM P (cdiv (lower + upper) 2 + 1) upper
    | some false => bsearchM P lower (cdiv (lower + upper) 2 - 1)
  else some upper
termination_by (upper + 1 - lower).toNat
decreasing_by
  · have hb := cdiv2_bounds lower upper _h
    omega
  · have hb := cdiv2_bounds lower upper _h
    omega

/-- Access-checked `tz_find`: identical control flow, with every array
subscript checked in C evaluation order.  In the reverse disambiguation,
`data->types[data->timetypes[upper]].isdst != isdst` is evaluated before
the `upper > 0` guard, exactly as in the C condition. -/
def tz_findM (d : TzData) (t : Int) (isdst : Option Bool) (reverse : Bool) :
    Option TzType :=
  let upperE : Option Int :=
    if !reverse then
      bsearchM (fun mid => (tvAtM d mid).map fun v => decide (v ≤ t))
        0 (timecnt d - 1)
    else
      match bsearchM (fun mid =>
          match ttAtM d mid with
          | none => none
          | some tt =>
            match typeAtM d tt with
            | none => none
            | some ty =>
              match tvAtM d mid with
              | none => none
              | some v => some (decide (v ≤ t - ty.gmtoff)))
          0 (timecnt d - 1) with
      | none => none
      | some u =>
        match isdst with
        | none => some u
        | some b =>
          match ttAtM d u with
          | none => none
          | some tt0 =>
            match typeAtM d tt0 with
            | none => none
            | some ty0 =>
              if ty0.isdst ≠ b then
                if 0 < u then
                  match ttAtM d (u - 1) with
                  | none => none
                  | some tt1 =>
                    match typeAtM d tt1 with
                    | none => none
                    | some ty1 =>
                      match tvAtM d u with
                      | none => none
                      | some v =>
                        if t - ty0.gmtoff - v < ty1.gmtoff - ty0.gmtoff
                        then some (u - 1) else some u
                else some u
              else some u
  match upperE with
  | none => none
  | some upper =>
    if 0 ≤ upper then
      match ttAtM d upper with
      | none => none
      | some tt => typeAtM d tt
    else typeAtM d 0

/-- Claim C10, refuted on the code: on a zone with zero transitions the
reverse lookup with a specified `dstPreference` evaluates
`data->timetypes[-1]` — an out-of-bounds access (`none`) — before the
`upper > 0` guard; with `dstPreference` unspecified no transition record
is read and `types[0]` is returned. -/
theorem c10_reverse_oob :
    tz_findM dstFirstZone 0 (some true) true = none ∧
    tz_findM dstFirstZone 0 (some false) true = none ∧
    tz_findM dstFirstZone 0 none true = some ⟨7200, true, 0⟩ := by
  refine ⟨?_, ?_, ?_⟩ <;>
    simp [tz_findM, bsearchM, tvAtM, ttAtM, typeAtM, timecnt, dstFirstZone]

end LuaTz
